import Mathlib

/-!
Verification of the request-validation core of the repository (the
SSRF / host-header-injection guard in `validation-DhKAntwS.mjs`).

The JavaScript source is shallowly embedded: header collections become
association lists with lowercased names, JS `Headers.get` becomes an
`Option String`-valued lookup, thrown errors become `Except String`
results carrying the error message, the externally-resolved one-shot
promise (`onError`) becomes explicit `Option String` state threaded
through the patched header reads, and the WHATWG `URL` host parse used
via `new URL(...)` / `URL.canParse` is modelled for absolute
`http://` / `https://` URLs over ASCII input.
-/

set_option maxRecDepth 4000

namespace SsrValidation

/-- Models the character set trimmed by JS `String.prototype.trim`
(ECMAScript WhiteSpace and LineTerminator code points; the remaining
Unicode `Zs` characters are not modelled). -/
def isJsWhitespace (c : Char) : Bool :=
  c = ' ' || c = '\t' || c = '\n' || c = '\r' ||
  c.toNat = 0x0B || c.toNat = 0x0C || c.toNat = 0xA0 || c.toNat = 0xFEFF ||
  c.toNat = 0x2028 || c.toNat = 0x2029

/-- Models JS `String.prototype.trim`: drop leading and trailing whitespace. -/
def jsTrim (s : String) : String :=
  String.mk (((s.data.dropWhile isJsWhitespace).reverse.dropWhile isJsWhitespace).reverse)

/-- Models JS `String.prototype.split(",")` on the character list: the
comma-separated groups, always at least one (possibly empty) group. -/
def splitCommaList : List Char → List (List Char)
  | [] => [[]]
  | c :: rest =>
    if c = ',' then [] :: splitCommaList rest
    else
      match splitCommaList rest with
      | [] => [[c]]
      | g :: gs => (c :: g) :: gs

/-- Embeds the body of `getFirstHeaderValue` for a present string value:
`value.toString().split(',', 1)[0].trim()`. -/
def getFirstOfString (s : String) : String :=
  jsTrim (String.mk ((splitCommaList s.data).headD []))

/-- Embeds `getFirstHeaderValue(value)`: `undefined` propagates, a string
yields its first comma-separated token, trimmed. -/
def getFirstHeaderValue (value : Option String) : Option String :=
  value.map getFirstOfString

/-- Models JS `String.prototype.toLowerCase` on ASCII input (character by
character, like the JS per-code-unit simple mapping). -/
def jsToLower (s : String) : String :=
  String.mk (s.data.map Char.toLower)

/-- Models JS `String.prototype.startsWith`. -/
def jsStartsWith (s pre : String) : Bool :=
  List.isPrefixOf pre.data s.data

/-- Models JS `String.prototype.endsWith`. -/
def jsEndsWith (s suf : String) : Bool :=
  List.isSuffixOf suf.data s.data

/-- Models JS `String.prototype.slice(n)` for a non-negative index. -/
def jsDrop (s : String) (n : Nat) : String :=
  String.mk (s.data.drop n)

/-- Numeric value of an all-digit character list, `none` otherwise; models
what a successful `/^\d+$/`-checked port parses to. -/
def charsToNat? (l : List Char) : Option Nat :=
  if l ≠ [] && l.all Char.isDigit then
    some (l.foldl (fun n c => n * 10 + (c.toNat - 48)) 0)
  else none

/-- Character class of `VALID_HOST_REGEX = /^[a-z0-9.:-]+$/i`. -/
def isHostChar (c : Char) : Bool :=
  c.isAlpha || c.isDigit || c = '.' || c = ':' || c = '-'

/-- Embeds `VALID_HOST_REGEX.test`: the whole (non-empty) string consists
of characters from `[a-z0-9.:-]` case-insensitively. -/
def validHostTest (s : String) : Bool :=
  s != "" && s.data.all isHostChar

/-- Embeds `VALID_PORT_REGEX.test` with `VALID_PORT_REGEX = /^\d+$/`. -/
def validPortTest (s : String) : Bool :=
  s != "" && s.data.all Char.isDigit

/-- Embeds `VALID_PROTO_REGEX.test` with `VALID_PROTO_REGEX = /^https?$/i`. -/
def validProtoTest (s : String) : Bool :=
  jsToLower s = "http" || jsToLower s = "https"

/-- Separator characters `[/\\]` of `INVALID_PREFIX_REGEX`. -/
def isSep (c : Char) : Bool :=
  c = '/' || c = '\\'

/-- First alternative `^[/\\]{2}` of `INVALID_PREFIX_REGEX`: the string
starts with two separator characters. -/
def twoSepStart : List Char → Bool
  | a :: b :: _ => isSep a && isSep b
  | _ => false

/-- After one `.` has been consumed at a segment boundary, decides the
remainder of `\.\.?(?:[/\\]|$)`: either the segment ends here (end of
string or a separator) or one more `.` follows and then the segment ends. -/
def dotTail : List Char → Bool
  | [] => true
  | d :: rest =>
    isSep d ||
    (d = '.' && (match rest with
                 | [] => true
                 | e :: _ => isSep e))

/-- Scans for the second alternative `(?:^|[/\\])\.\.?(?:[/\\]|$)` of
`INVALID_PREFIX_REGEX`. The flag records whether the current position is a
segment boundary (start of string or just after a separator). -/
def hasDotSegAux : Bool → List Char → Bool
  | _, [] => false
  | b, c :: rest => (b && c = '.' && dotTail rest) || hasDotSegAux (isSep c) rest

/-- Embeds `INVALID_PREFIX_REGEX.test` with
`INVALID_PREFIX_REGEX = /^[/\\]{2}|(?:^|[/\\])\.\.?(?:[/\\]|$)/`. -/
def invalidPrefixTest (s : String) : Bool :=
  twoSepStart s.data || hasDotSegAux true s.data

/-- Embeds `HOST_HEADERS_TO_VALIDATE = new Set(['host', 'x-forwarded-host'])`,
kept in insertion order as a list. -/
def HOST_HEADERS_TO_VALIDATE : List String :=
  ["host", "x-forwarded-host"]

/-- An incoming request: its URL string and its header collection.
Header names are stored lowercased, as the JS `Headers` class normalizes
them; combining of duplicate names is not modelled (first match wins). -/
structure Request where
  url : String
  headers : List (String × String)

/-- Models `Headers.prototype.get`: case-insensitive lookup returning the
value, or `none` (JS `null`) when the header is absent. -/
def headersGet (headers : List (String × String)) (name : String) : Option String :=
  (headers.find? (fun p => p.1 == jsToLower name)).map (fun p => p.2)

/-- Models JS truthiness of a possibly-absent string combined with a
follow-up test: `value && p(value)`. -/
def truthyAnd (o : Option String) (p : String → Bool) : Bool :=
  match o with
  | none => false
  | some v => v != "" && p v

/-- Scheme prefix handling of the modelled URL parser: only absolute
`http://` and `https://` URLs are parsed, as in the source's uses. -/
def dropScheme (url : String) : Option String :=
  if jsStartsWith url "http://" then some (jsDrop url 7)
  else if jsStartsWith url "https://" then some (jsDrop url 8)
  else none

/-- The part of an authority after the last `@` (userinfo stripped). -/
def afterLastAt (s : String) : String :=
  String.mk ((s.data.reverse.takeWhile (fun c => c != '@')).reverse)

/-- Forbidden domain code points of the WHATWG URL standard (C0 controls,
space, `#/:<>?@[\]^|`, `%`, DEL), with non-ASCII also rejected since
IDN/punycode and percent-decoding are not modelled. -/
def forbiddenHostChar (c : Char) : Bool :=
  c.toNat ≤ 0x20 || c.toNat = 0x7F || 0x80 ≤ c.toNat ||
  c = '#' || c = '/' || c = ':' || c = '<' || c = '>' || c = '?' || c = '@' ||
  c = '[' || c = '\\' || c = ']' || c = '^' || c = '|' || c = '%'

/-- Models the hostname extraction of `new URL(url)` (and `URL.canParse`,
which is `none`-freeness here) for absolute `http(s)://` URLs: extra
slashes after the scheme are skipped, the authority runs to the first
`/ \ ? #`, userinfo is dropped, the host ends at the first `:` with the
remainder validated as a numeric port `≤ 65535`, the host must be
non-empty and free of forbidden code points, and is lowercased.
IPv6 literals, percent-escapes, IDN and tab/newline stripping are not
modelled. -/
def urlHostname (url : String) : Option String :=
  match dropScheme url with
  | none => none
  | some rest =>
    let rest2 := String.mk (rest.data.dropWhile (fun c => c = '/' || c = '\\'))
    let authority := String.mk (rest2.data.takeWhile
      (fun c => !(c = '/' || c = '\\' || c = '?' || c = '#')))
    let hostPort := afterLastAt authority
    let host := String.mk (hostPort.data.takeWhile (fun c => c != ':'))
    let port := String.mk ((hostPort.data.dropWhile (fun c => c != ':')).drop 1)
    if host = "" then none
    else if host.data.any forbiddenHostChar then none
    else if port != "" && !(match charsToNat? port.data with
                            | some n => n ≤ 65535
                            | none => false) then none
    else some (jsToLower host)

/-- Embeds `isHostAllowed(hostname, allowedHosts)`: exact membership, else
a scan of the wildcard entries (prefix `*.`), comparing against the entry
with the leading `*` stripped by `slice(1)`. The JS `Set` is modelled as a
list in insertion order. -/
def isHostAllowed (hostname : String) (allowedHosts : List String) : Bool :=
  if allowedHosts.contains hostname then true
  else allowedHosts.any (fun allowedHost =>
    jsStartsWith allowedHost "*." && jsEndsWith hostname (jsDrop allowedHost 1))

/-- Message of the character-class violation in `validateHeaders`. -/
def charNotAllowedMsg (name : String) : String :=
  "Header \"" ++ name ++ "\" contains characters that are not allowed."

/-- Message of the port violation in `validateHeaders`. -/
def portMsg : String :=
  "Header \"x-forwarded-port\" must be a numeric value."

/-- Message of the protocol violation in `validateHeaders`. -/
def protoMsg : String :=
  "Header \"x-forwarded-proto\" must be either \"http\" or \"https\"."

/-- Message of the prefix violation in `validateHeaders`. -/
def prefixMsg : String :=
  "Header \"x-forwarded-prefix\" must not start with multiple \"/\" or \"\\\" or contain \".\", \"..\" path segments."

/-- Message of the unparsable-value violation in `verifyHostAllowed`. -/
def cannotParseMsg (name : String) : String :=
  "Header \"" ++ name ++ "\" contains an invalid value and cannot be parsed."

/-- Message of the allow-list violation in `verifyHostAllowed`. -/
def notAllowedMsg (name value : String) : String :=
  "Header \"" ++ name ++ "\" with value \"" ++ value ++ "\" is not allowed."

/-- Message of the allow-list violation in `validateUrl`. -/
def urlNotAllowedMsg (hostname : String) : String :=
  "URL with hostname \"" ++ hostname ++ "\" is not allowed."

/-- The `for (const headerName of HOST_HEADERS_TO_VALIDATE)` loop of
`validateHeaders`: throw `charNotAllowedMsg` on the first header whose
truthy first token fails `VALID_HOST_REGEX`. -/
def checkHostHeaderChars : List String → List (String × String) → Except String Unit
  | [], _ => Except.ok ()
  | name :: rest, headers =>
    if truthyAnd (getFirstHeaderValue (headersGet headers name)) (fun v => !(validHostTest v)) then
      Except.error (charNotAllowedMsg name)
    else checkHostHeaderChars rest headers

/-- Embeds `validateHeaders(request)`: host-header character check, then
`x-forwarded-port`, `x-forwarded-proto`, `x-forwarded-prefix`. -/
def validateHeaders (request : Request) : Except String Unit :=
  match checkHostHeaderChars HOST_HEADERS_TO_VALIDATE request.headers with
  | Except.error e => Except.error e
  | Except.ok () =>
    if truthyAnd (getFirstHeaderValue (headersGet request.headers "x-forwarded-port"))
        (fun v => !(validPortTest v)) then Except.error portMsg
    else if truthyAnd (getFirstHeaderValue (headersGet request.headers "x-forwarded-proto"))
        (fun v => !(validProtoTest v)) then Except.error protoMsg
    else if truthyAnd (getFirstHeaderValue (headersGet request.headers "x-forwarded-prefix"))
        (fun v => invalidPrefixTest v) then Except.error prefixMsg
    else Except.ok ()

/-- Embeds `validateUrl(url, allowedHosts)` applied to the already
extracted `hostname` of the URL object. -/
def validateUrl (hostname : String) (allowedHosts : List String) : Except String Unit :=
  if !(isHostAllowed hostname allowedHosts) then Except.error (urlNotAllowedMsg hostname)
  else Except.ok ()

/-- Embeds `validateRequest(request, allowedHosts)`: `validateHeaders`,
then `validateUrl(new URL(request.url), allowedHosts)`; the `TypeError`
of `new URL` on an unparsable URL is the `"Invalid URL"` error. -/
def validateRequest (request : Request) (allowedHosts : List String) : Except String Unit :=
  match validateHeaders request with
  | Except.error e => Except.error e
  | Except.ok () =>
    match urlHostname request.url with
    | none => Except.error "Invalid URL"
    | some hostname => validateUrl hostname allowedHosts

/-- Embeds `verifyHostAllowed(headerName, headerValue, allowedHosts)`:
take the first token, return silently when it is empty, throw
`cannotParseMsg` when `http://<value>` cannot be parsed, throw
`notAllowedMsg` when the parsed hostname fails the allow-list. -/
def verifyHostAllowed (headerName headerValue : String) (allowedHosts : List String) :
    Except String Unit :=
  let value := getFirstOfString headerValue
  if value = "" then Except.ok ()
  else
    match urlHostname ("http://" ++ value) with
    | none => Except.error (cannotParseMsg headerName)
    | some hostname =>
      if !(isHostAllowed hostname allowedHosts) then
        Except.error (notAllowedMsg headerName value)
      else Except.ok ()

/-- Resolution of the externally-resolved one-shot promise of
`cloneRequestAndPatchHeaders`: the first `onError(e)` wins, later calls
are no-ops. -/
def resolveOnce (st : Option String) (e : String) : Option String :=
  match st with
  | none => some e
  | some x => some x

/-- Embeds `validateHeader(name, value, allowedHosts, onError)`. The
one-shot promise is the explicit `Option String` state; a thrown error is
the `Except.error` component, and on a violation the promise is resolved
(`resolveOnce`) before the error is re-thrown. -/
def validateHeader (name : String) (value : Option String) (allowedHosts : List String)
    (onErrorState : Option String) : Except String Unit × Option String :=
  match value with
  | none => (Except.ok (), onErrorState)
  | some v =>
    if v = "" then (Except.ok (), onErrorState)
    else if !(HOST_HEADERS_TO_VALIDATE.contains (jsToLower name)) then (Except.ok (), onErrorState)
    else
      match verifyHostAllowed name v allowedHosts with
      | Except.ok () => (Except.ok (), onErrorState)
      | Except.error e => (Except.error e, resolveOnce onErrorState e)

/-- Embeds the patched `headers.get` installed by
`cloneRequestAndPatchHeaders`: read the value with the original `get`,
return a falsy value unvalidated, otherwise run `validateHeader` and
return the value when no error is thrown. -/
def patchedGet (headers : List (String × String)) (allowedHosts : List String) (name : String)
    (onErrorState : Option String) : Except String (Option String) × Option String :=
  match headersGet headers name with
  | none => (Except.ok none, onErrorState)
  | some v =>
    if v = "" then (Except.ok (some v), onErrorState)
    else
      match validateHeader name (some v) allowedHosts onErrorState with
      | (Except.ok _, st) => (Except.ok (some v), st)
      | (Except.error e, st) => (Except.error e, st)

/-- Runs `validateHeader` over a list of (name, read value) pairs,
stopping at the first thrown error, threading the one-shot promise
state. -/
def runHeaderChecks (allowedHosts : List String) :
    List (String × Option String) → Option String → Except String Unit × Option String
  | [], st => (Except.ok (), st)
  | (n, v) :: rest, st =>
    match validateHeader n v allowedHosts st with
    | (Except.ok _, st2) => runHeaderChecks allowedHosts rest st2
    | (Except.error e, st2) => (Except.error e, st2)

/-- Embeds the validation performed by the patched `headers.values`: every
name of `HOST_HEADERS_TO_VALIDATE` is read with the original `get` and
validated before the original iterator is returned. -/
def patchedValuesCheck (headers : List (String × String)) (allowedHosts : List String)
    (onErrorState : Option String) : Except String Unit × Option String :=
  runHeaderChecks allowedHosts
    (HOST_HEADERS_TO_VALIDATE.map (fun n => (n, headersGet headers n))) onErrorState

/-- Embeds the validation performed by a full drain of the patched
`headers.entries` iterator (also installed as `Symbol.iterator`): each
yielded (key, value) entry is passed to `validateHeader`. -/
def patchedEntriesCheck (entries : List (String × String)) (allowedHosts : List String)
    (onErrorState : Option String) : Except String Unit × Option String :=
  runHeaderChecks allowedHosts (entries.map (fun p => (p.1, some p.2))) onErrorState

/-- Spec-side reading of the host-header character stage of
`validateHeaders` as a standalone check: the error it would throw, if any. -/
def hostCharViolation : List String → List (String × String) → Option String
  | [], _ => none
  | name :: rest, headers =>
    if truthyAnd (getFirstHeaderValue (headersGet headers name)) (fun v => !(validHostTest v)) then
      some (charNotAllowedMsg name)
    else hostCharViolation rest headers

/-- Spec-side reading of the `x-forwarded-port` stage as a standalone check. -/
def portViolation (headers : List (String × String)) : Option String :=
  if truthyAnd (getFirstHeaderValue (headersGet headers "x-forwarded-port"))
      (fun v => !(validPortTest v)) then some portMsg
  else none

/-- Spec-side reading of the `x-forwarded-proto` stage as a standalone check. -/
def protoViolation (headers : List (String × String)) : Option String :=
  if truthyAnd (getFirstHeaderValue (headersGet headers "x-forwarded-proto"))
      (fun v => !(validProtoTest v)) then some protoMsg
  else none

/-- Spec-side reading of the `x-forwarded-prefix` stage as a standalone check. -/
def prefixViolation (headers : List (String × String)) : Option String :=
  if truthyAnd (getFirstHeaderValue (headersGet headers "x-forwarded-prefix"))
      invalidPrefixTest then some prefixMsg
  else none

/-- Spec-side reading of the URL-hostname allow-list stage as a standalone
check (including the `new URL` failure). -/
def urlViolation (request : Request) (allowedHosts : List String) : Option String :=
  match urlHostname request.url with
  | none => some "Invalid URL"
  | some hostname =>
    if !(isHostAllowed hostname allowedHosts) then some (urlNotAllowedMsg hostname)
    else none

/-- The first error of a list of independent check outcomes, in order. -/
def firstErr : List (Option String) → Except String Unit
  | [] => Except.ok ()
  | some e :: _ => Except.error e
  | none :: rest => firstErr rest

/-- Spec-side wording of C7: a path segment is bounded on the right by a
separator or the string edge. -/
def segBoundedAfter (post : List Char) : Prop :=
  post = [] ∨ ∃ d rest, post = d :: rest ∧ isSep d = true

/-- Spec-side wording of C7: a path segment is bounded on the left by a
separator or the string edge. -/
def segBoundedBefore (pre : List Char) : Prop :=
  pre = [] ∨ ∃ pre2 c, pre = pre2 ++ [c] ∧ isSep c = true

/-- Spec-side wording of C7: the string contains a path segment equal to
`.` or `..`, bounded by `/`, `\` or the string edges. -/
def hasDotSegmentSpec (l : List Char) : Prop :=
  ∃ pre seg post, l = pre ++ seg ++ post ∧ (seg = ['.'] ∨ seg = ['.', '.'])
    ∧ segBoundedBefore pre ∧ segBoundedAfter post

/-- Spec-side wording of C7: the first token starts with two consecutive
`/` or `\` characters, or contains a `.` or `..` path segment. -/
def prefixBadSpec (p : String) : Prop :=
  (∃ a b rest, p.data = a :: b :: rest ∧ isSep a = true ∧ isSep b = true)
  ∨ hasDotSegmentSpec p.data

theorem splitCommaList_ne_nil (l : List Char) : splitCommaList l ≠ [] := by
  cases l with
  | nil => simp [splitCommaList]
  | cons c rest =>
    simp only [splitCommaList]
    split
    · simp
    · split <;> simp

theorem headD_splitCommaList (l : List Char) :
    (splitCommaList l).headD [] = l.takeWhile (fun c => c != ',') := by
  induction l with
  | nil => rfl
  | cons c rest ih =>
    simp only [splitCommaList, List.takeWhile]
    by_cases h : c = ','
    · simp [h]
    · simp only [if_neg h]
      cases hs : splitCommaList rest with
      | nil => exact absurd hs (splitCommaList_ne_nil rest)
      | cons g gs =>
        rw [hs] at ih
        simp only [List.headD_cons] at ih
        have hb : (c != ',') = true := by simpa using h
        simp [hb, ih]

/-- C8: for a defined header value, `getFirstHeaderValue` returns the first
comma-separated token trimmed of surrounding whitespace; for an undefined
input it returns `undefined`; in particular `"a, b, c"` yields `"a"`. -/
theorem getFirstHeaderValue_spec :
    getFirstHeaderValue none = none
    ∧ (∀ s : String, getFirstHeaderValue (some s)
        = some (jsTrim (String.mk (s.data.takeWhile (fun c => c != ',')))))
    ∧ getFirstHeaderValue (some "a, b, c") = some "a"
    ∧ getFirstHeaderValue (some "  spaced  ") = some "spaced" := by
  refine ⟨rfl, ?_, by decide, by decide⟩
  intro s
  show some (jsTrim (String.mk ((splitCommaList s.data).headD [])))
    = some (jsTrim (String.mk (s.data.takeWhile (fun c => c != ','))))
  rw [headD_splitCommaList]

/-- C3: `isHostAllowed(h, S)` is true exactly when `h` is a verbatim member
of `S` or some `*.`-entry of `S`, with the `*` stripped and the dot kept,
is a suffix of `h`; consequently every member of `S` is allowed, and with
`S = ["*.example.com"]`, `"api.example.com"` is allowed while
`"evilexample.com"` is not. -/
theorem isHostAllowed_iff (h : String) (S : List String) :
    (isHostAllowed h S = true ↔
      h ∈ S ∨ ∃ p ∈ S, jsStartsWith p "*." = true ∧ jsEndsWith h (jsDrop p 1) = true)
    ∧ (∀ x ∈ S, isHostAllowed x S = true)
    ∧ isHostAllowed "api.example.com" ["*.example.com"] = true
    ∧ isHostAllowed "evilexample.com" ["*.example.com"] = false := by
  refine ⟨?_, ?_, by decide, by decide⟩
  · unfold isHostAllowed
    by_cases hc : S.contains h
    · simp only [hc, if_true, true_iff]
      left
      exact List.mem_of_elem_eq_true hc
    · simp only [hc, if_false, Bool.false_eq_true]
      rw [List.any_eq_true]
      constructor
      · rintro ⟨p, hp, hcond⟩
        rw [Bool.and_eq_true] at hcond
        exact Or.inr ⟨p, hp, hcond.1, hcond.2⟩
      · rintro (hm | ⟨p, hp, h1, h2⟩)
        · exact absurd (List.elem_eq_true_of_mem hm) (by simpa using hc)
        · exact ⟨p, hp, by rw [Bool.and_eq_true]; exact ⟨h1, h2⟩⟩
  · intro x hx
    unfold isHostAllowed
    rw [if_pos (show S.contains x = true from List.elem_eq_true_of_mem hx)]

theorem isHostAllowed_iff_witness :
    "api.example.com" ∈ ["api.example.com", "*.example.com"]
    ∧ isHostAllowed "api.example.com" ["api.example.com", "*.example.com"] = true :=
  ⟨by decide, (isHostAllowed_iff "h" ["api.example.com", "*.example.com"]).2.1
    "api.example.com" (by decide)⟩

/-- C4 counterexample: the claim that a `*.example.com` wildcard entry also
matches the bare domain `example.com` is false on the code. -/
theorem wildcard_bare_domain_counterexample :
    ¬ (isHostAllowed "example.com" ["*.example.com"] = true) := by decide

/-- C4 (amended): stripping the `*` of `*.example.com` leaves
`.example.com`, which is not a suffix of `example.com`, so the bare domain
is rejected by the wildcard entry. -/
theorem wildcard_excludes_bare_domain :
    isHostAllowed "example.com" ["*.example.com"] = false
    ∧ jsEndsWith "example.com" ".example.com" = false := by decide

/-- C1 counterexample: end-to-end scenario B — request URL
`https://allowed.example.com/page`, header `host: attacker.com`,
`allowedHosts = ["*.example.com"]`. The upfront `validateRequest` returns
normally: it never runs the allow-list against header values, so it does
not raise the claimed error. -/
theorem upfront_scenarioB_counterexample :
    validateRequest ⟨"https://allowed.example.com/page", [("host", "attacker.com")]⟩
        ["*.example.com"] = Except.ok ()
    ∧ validateRequest ⟨"https://allowed.example.com/page", [("host", "attacker.com")]⟩
        ["*.example.com"] ≠ Except.error (notAllowedMsg "host" "attacker.com") := by
  constructor
  · rfl
  · intro hc
    rw [show validateRequest ⟨"https://allowed.example.com/page", [("host", "attacker.com")]⟩
          ["*.example.com"] = Except.ok () from rfl] at hc
    exact Except.noConfusion hc

/-- C1 (amended): the allow-list check on a `host` / `x-forwarded-host`
header value is performed only by the deferred-path `verifyHostAllowed`,
not by the upfront `validateRequest`: whenever the header's first token is
non-empty, parses as `http://<value>`, and its hostname fails the
allow-list, `verifyHostAllowed` raises
`Header "<name>" with value "<value>" is not allowed.`. -/
theorem verifyHostAllowed_rejects_disallowed (headerName headerValue v h : String)
    (ah : List String) (hv : getFirstOfString headerValue = v) (hne : v ≠ "")
    (hp : urlHostname ("http://" ++ v) = some h)
    (hna : isHostAllowed h ah = false) :
    verifyHostAllowed headerName headerValue ah
      = Except.error (notAllowedMsg headerName v) := by
  unfold verifyHostAllowed
  rw [hv, if_neg hne, hp]
  simp [hna]

theorem verifyHostAllowed_rejects_disallowed_witness :
    getFirstOfString "attacker.com" = "attacker.com"
    ∧ urlHostname ("http://" ++ "attacker.com") = some "attacker.com"
    ∧ isHostAllowed "attacker.com" ["*.example.com"] = false
    ∧ verifyHostAllowed "host" "attacker.com" ["*.example.com"]
        = Except.error "Header \"host\" with value \"attacker.com\" is not allowed." :=
  ⟨by decide, by decide, by decide,
    verifyHostAllowed_rejects_disallowed "host" "attacker.com" "attacker.com" "attacker.com"
      ["*.example.com"] (by decide) (by decide) (by decide) (by decide)⟩

theorem validateHeader_nonhost (name : String) (v : Option String) (ah : List String)
    (st : Option String) (h : HOST_HEADERS_TO_VALIDATE.contains (jsToLower name) = false) :
    validateHeader name v ah st = (Except.ok (), st) := by
  cases v with
  | none => rfl
  | some s =>
    unfold validateHeader
    dsimp only
    by_cases hs : s = ""
    · rw [if_pos hs]
    · rw [if_neg hs,
        if_pos (show (!(HOST_HEADERS_TO_VALIDATE.contains (jsToLower name))) = true by
          rw [h]; rfl)]

theorem validateHeader_host (name v : String) (ah : List String) (st : Option String)
    (hmem : HOST_HEADERS_TO_VALIDATE.contains (jsToLower name) = true) (hne : v ≠ "") :
    validateHeader name (some v) ah st
      = match verifyHostAllowed name v ah with
        | Except.ok _ => (Except.ok (), st)
        | Except.error e => (Except.error e, resolveOnce st e) := by
  simp only [validateHeader, if_neg hne, hmem]
  cases hv : verifyHostAllowed name v ah <;> simp [hv]

theorem validateHeader_state (name : String) (value : Option String) (ah : List String)
    (st : Option String) :
    (validateHeader name value ah st).2
      = match (validateHeader name value ah st).1 with
        | Except.ok _ => st
        | Except.error e => resolveOnce st e := by
  cases value with
  | none => rfl
  | some v =>
    by_cases hs : v = ""
    · simp [validateHeader, hs]
    · by_cases hmem : HOST_HEADERS_TO_VALIDATE.contains (jsToLower name) = true
      · rw [validateHeader_host name v ah st hmem hs]
        cases hv : verifyHostAllowed name v ah <;> simp
      · rw [validateHeader_nonhost name (some v) ah st (by simpa using hmem)]

theorem patchedGet_skips (hs : List (String × String)) (ah : List String) (name : String)
    (st : Option String) (h : HOST_HEADERS_TO_VALIDATE.contains (jsToLower name) = false) :
    patchedGet hs ah name st = (Except.ok (headersGet hs name), st) := by
  unfold patchedGet
  cases hg : headersGet hs name with
  | none => rfl
  | some v =>
    dsimp only
    by_cases hv : v = ""
    · simp [hv]
    · rw [if_neg hv, validateHeader_nonhost name (some v) ah st h]

theorem patchedGet_validates (hs : List (String × String)) (ah : List String) (name v : String)
    (st : Option String) (hmem : HOST_HEADERS_TO_VALIDATE.contains (jsToLower name) = true)
    (hget : headersGet hs name = some v) (hne : v ≠ "") :
    patchedGet hs ah name st
      = match verifyHostAllowed name v ah with
        | Except.ok _ => (Except.ok (some v), st)
        | Except.error e => (Except.error e, resolveOnce st e) := by
  unfold patchedGet
  rw [hget]
  dsimp only
  rw [if_neg hne, validateHeader_host name v ah st hmem hne]
  cases hv : verifyHostAllowed name v ah <;> simp [hv]

theorem patchedGet_state (hs : List (String × String)) (ah : List String) (name : String)
    (st : Option String) :
    (patchedGet hs ah name st).2
      = match (patchedGet hs ah name st).1 with
        | Except.ok _ => st
        | Except.error e => resolveOnce st e := by
  unfold patchedGet
  cases hg : headersGet hs name with
  | none => rfl
  | some v =>
    dsimp only
    by_cases hv : v = ""
    · simp [hv]
    · rw [if_neg hv]
      have hst := validateHeader_state name (some v) ah st
      rcases hvh : validateHeader name (some v) ah st with ⟨r, st2⟩
      rw [hvh] at hst
      cases r <;> simp_all

/-- C5: a violation detected by a patched header read resolves the
(previously unresolved) one-shot outcome signal with exactly the error it
re-raises; a read that passes validation leaves the signal untouched; and
a later violation does not overwrite an already-resolved signal (first
violation wins). -/
theorem first_violation_resolves_and_reraises (hs : List (String × String)) (name : String)
    (value : Option String) (ah : List String) (st : Option String) (e x : String) :
    ((validateHeader name value ah none).1 = Except.error e →
      (validateHeader name value ah none).2 = some e)
    ∧ ((validateHeader name value ah st).1 = Except.ok () →
      (validateHeader name value ah st).2 = st)
    ∧ ((validateHeader name value ah (some x)).1 = Except.error e →
      (validateHeader name value ah (some x)).2 = some x)
    ∧ ((patchedGet hs ah name none).1 = Except.error e →
      (patchedGet hs ah name none).2 = some e)
    ∧ (∀ r, (patchedGet hs ah name st).1 = Except.ok r →
      (patchedGet hs ah name st).2 = st) := by
  refine ⟨?_, ?_, ?_, ?_, ?_⟩
  · intro h; rw [validateHeader_state, h]; rfl
  · intro h; rw [validateHeader_state, h]
  · intro h; rw [validateHeader_state, h]; rfl
  · intro h; rw [patchedGet_state, h]; rfl
  · intro r h; rw [patchedGet_state, h]

theorem first_violation_resolves_and_reraises_witness :
    (validateHeader "host" (some "bad host") [] none).1
        = Except.error (cannotParseMsg "host")
    ∧ (validateHeader "host" (some "bad host") [] none).2
        = some (cannotParseMsg "host")
    ∧ (validateHeader "host" (some "good.example.com") ["good.example.com"] none).1
        = Except.ok ()
    ∧ (validateHeader "host" (some "good.example.com") ["good.example.com"] none).2 = none
    ∧ (validateHeader "host" (some "bad host") [] (some "first error")).2
        = some "first error" :=
  ⟨by rfl,
   (first_violation_resolves_and_reraises [] "host" (some "bad host") [] none
     (cannotParseMsg "host") "x").1 (by rfl),
   by rfl,
   (first_violation_resolves_and_reraises [] "host" (some "good.example.com")
     ["good.example.com"] none "e" "x").2.1 (by rfl),
   (first_violation_resolves_and_reraises [] "host" (some "bad host") [] none
     (cannotParseMsg "host") "first error").2.2.1 (by rfl)⟩

/-- C9: whether a patched read validates is decided by the lowercased
header name: a read of a header whose lowercased name is not `host` or
`x-forwarded-host` never raises and never resolves the outcome signal,
whatever its value, while a read whose lowercased name is one of the two
(any letter case) runs the host validation on the stored value. -/
theorem patched_read_name_dispatch (hs : List (String × String)) (ah : List String)
    (name : String) (st : Option String) (v : String) :
    (HOST_HEADERS_TO_VALIDATE.contains (jsToLower name) = false →
      patchedGet hs ah name st = (Except.ok (headersGet hs name), st)
      ∧ validateHeader name (some v) ah st = (Except.ok (), st))
    ∧ (HOST_HEADERS_TO_VALIDATE.contains (jsToLower name) = true →
       headersGet hs name = some v → v ≠ "" →
       patchedGet hs ah name st
         = match verifyHostAllowed name v ah with
           | Except.ok _ => (Except.ok (some v), st)
           | Except.error e => (Except.error e, resolveOnce st e)) :=
  ⟨fun h => ⟨patchedGet_skips hs ah name st h, validateHeader_nonhost name (some v) ah st h⟩,
   fun hmem hget hne => patchedGet_validates hs ah name v st hmem hget hne⟩

theorem patched_read_name_dispatch_witness :
    HOST_HEADERS_TO_VALIDATE.contains (jsToLower "x-custom-id") = false
    ∧ patchedGet [("x-custom-id", "anything at all!")] [] "x-custom-id" none
        = (Except.ok (headersGet [("x-custom-id", "anything at all!")] "x-custom-id"), none)
    ∧ HOST_HEADERS_TO_VALIDATE.contains (jsToLower "X-Forwarded-Host") = true
    ∧ patchedGet [("x-forwarded-host", "attacker.com")] ["*.example.com"]
        "X-Forwarded-Host" none
        = (Except.error (notAllowedMsg "X-Forwarded-Host" "attacker.com"),
           some (notAllowedMsg "X-Forwarded-Host" "attacker.com")) :=
  ⟨by decide,
   ((patched_read_name_dispatch [("x-custom-id", "anything at all!")] [] "x-custom-id"
      none "v").1 (by decide)).1,
   by decide,
   (patched_read_name_dispatch [("x-forwarded-host", "attacker.com")] ["*.example.com"]
      "X-Forwarded-Host" none "attacker.com").2 (by decide) (by rfl) (by decide)⟩

/-- C2 counterexample: in the patched clone, reading
`x-forwarded-host: bad_host` with `allowedHosts = ["bad_host"]` returns the
value and leaves the outcome signal unresolved even though `bad_host`
fails the character-class regex `^[a-z0-9.:-]+$` — the deferred per-read
check never runs the character-class test. -/
theorem patched_read_skips_char_class :
    patchedGet [("x-forwarded-host", "bad_host")] ["bad_host"] "x-forwarded-host" none
      = (Except.ok (some "bad_host"), none)
    ∧ validHostTest "bad_host" = false :=
  ⟨rfl, by decide⟩

/-- C2 (amended): every patched read of a non-empty `host` /
`x-forwarded-host` value runs the stored check, which is the synthetic
`http://<value>` URL parse followed by the allow-list check (not the
character-class regex); for the value `bad host` every read path — `get`,
`values`, `entries` — raises the unparsable-value error synchronously and
resolves the outcome signal with the same error. -/
theorem patched_reads_run_urlparse_allowlist (hs : List (String × String)) (ah : List String)
    (name v : String) (st : Option String)
    (hmem : HOST_HEADERS_TO_VALIDATE.contains (jsToLower name) = true)
    (hget : headersGet hs name = some v) (hne : v ≠ "") :
    patchedGet hs ah name st
      = (match verifyHostAllowed name v ah with
         | Except.ok _ => (Except.ok (some v), st)
         | Except.error e => (Except.error e, resolveOnce st e))
    ∧ (∀ ah2 st2,
        patchedGet [("x-forwarded-host", "bad host")] ah2 "x-forwarded-host" st2
          = (Except.error (cannotParseMsg "x-forwarded-host"),
             resolveOnce st2 (cannotParseMsg "x-forwarded-host"))
        ∧ patchedValuesCheck [("x-forwarded-host", "bad host")] ah2 st2
          = (Except.error (cannotParseMsg "x-forwarded-host"),
             resolveOnce st2 (cannotParseMsg "x-forwarded-host"))
        ∧ patchedEntriesCheck [("x-forwarded-host", "bad host")] ah2 st2
          = (Except.error (cannotParseMsg "x-forwarded-host"),
             resolveOnce st2 (cannotParseMsg "x-forwarded-host"))) := by
  refine ⟨patchedGet_validates hs ah name v st hmem hget hne, ?_⟩
  intro ah2 st2
  refine ⟨rfl, rfl, rfl⟩

theorem patched_reads_run_urlparse_allowlist_witness :
    HOST_HEADERS_TO_VALIDATE.contains (jsToLower "x-forwarded-host") = true
    ∧ headersGet [("x-forwarded-host", "bad host")] "x-forwarded-host" = some "bad host"
    ∧ patchedGet [("x-forwarded-host", "bad host")] [] "x-forwarded-host" none
        = (Except.error (cannotParseMsg "x-forwarded-host"),
           some (cannotParseMsg "x-forwarded-host")) :=
  ⟨by decide, by rfl,
   (patched_reads_run_urlparse_allowlist [("x-forwarded-host", "bad host")] []
      "x-forwarded-host" "bad host" none (by decide) (by rfl) (by decide)).1⟩

theorem checkHostHeaderChars_eq (names : List String) (hs : List (String × String)) :
    checkHostHeaderChars names hs
      = match hostCharViolation names hs with
        | some e => Except.error e
        | none => Except.ok () := by
  induction names with
  | nil => rfl
  | cons n rest ih =>
    simp only [checkHostHeaderChars, hostCharViolation]
    by_cases hc : truthyAnd (getFirstHeaderValue (headersGet hs n))
        (fun v => !(validHostTest v)) = true
    · simp [hc]
    · simp only [Bool.not_eq_true] at hc
      simp [hc, ih]

/-- C6: `validateRequest` is the ordered composition of five independent
checks — host/x-forwarded-host character class, then `x-forwarded-port`,
then `x-forwarded-proto`, then `x-forwarded-prefix`, then the URL-hostname
allow-list — and returns exactly the first failing check's error (later
checks are irrelevant once one fails, and no partial result exists). -/
theorem validateRequest_check_order (req : Request) (ah : List String) :
    validateRequest req ah
      = firstErr [hostCharViolation HOST_HEADERS_TO_VALIDATE req.headers,
                  portViolation req.headers,
                  protoViolation req.headers,
                  prefixViolation req.headers,
                  urlViolation req ah] := by
  unfold validateRequest validateHeaders
  rw [checkHostHeaderChars_eq]
  cases h1 : hostCharViolation HOST_HEADERS_TO_VALIDATE req.headers with
  | some e => simp [firstErr]
  | none =>
    simp only [firstErr]
    unfold portViolation protoViolation prefixViolation
    by_cases h2 : truthyAnd (getFirstHeaderValue (headersGet req.headers "x-forwarded-port"))
        (fun v => !(validPortTest v)) = true
    · simp [h2, firstErr]
    · simp only [Bool.not_eq_true] at h2
      simp only [h2, if_false, Bool.false_eq_true, firstErr]
      by_cases h3 : truthyAnd (getFirstHeaderValue (headersGet req.headers "x-forwarded-proto"))
          (fun v => !(validProtoTest v)) = true
      · simp [h3, firstErr]
      · simp only [Bool.not_eq_true] at h3
        simp only [h3, if_false, Bool.false_eq_true, firstErr]
        by_cases h4 : truthyAnd
            (getFirstHeaderValue (headersGet req.headers "x-forwarded-prefix"))
            invalidPrefixTest = true
        · simp [h4, firstErr]
        · simp only [Bool.not_eq_true] at h4
          simp only [h4, if_false, Bool.false_eq_true, firstErr]
          unfold urlViolation validateUrl
          cases hu : urlHostname req.url with
          | none => simp [firstErr]
          | some hostname =>
            by_cases ha : isHostAllowed hostname ah = true
            · simp [ha, firstErr]
            · simp only [Bool.not_eq_true] at ha
              simp [ha, firstErr]

theorem twoSepStart_iff (l : List Char) :
    twoSepStart l = true ↔ ∃ a b rest, l = a :: b :: rest ∧ isSep a = true ∧ isSep b = true := by
  cases l with
  | nil => simp [twoSepStart]
  | cons a t =>
    cases t with
    | nil => simp [twoSepStart]
    | cons b rest =>
      show (isSep a && isSep b) = true ↔ _
      rw [Bool.and_eq_true]
      constructor
      · exact fun hb => ⟨a, b, rest, rfl, hb.1, hb.2⟩
      · rintro ⟨a2, b2, rest2, heq, h1, h2⟩
        injection heq with ha ht
        injection ht with hb2 _
        subst ha; subst hb2
        exact ⟨h1, h2⟩

theorem dotTail_iff (r : List Char) :
    dotTail r = true ↔ segBoundedAfter r ∨ ∃ r2, r = '.' :: r2 ∧ segBoundedAfter r2 := by
  cases r with
  | nil =>
    simp [dotTail, segBoundedAfter]
  | cons d rest =>
    cases rest with
    | nil =>
      simp only [dotTail, segBoundedAfter, Bool.or_eq_true, Bool.and_eq_true,
        decide_eq_true_eq]
      constructor
      · rintro (hd | ⟨hd, _⟩)
        · exact Or.inl (Or.inr ⟨d, [], rfl, hd⟩)
        · exact Or.inr ⟨[], by rw [hd], Or.inl rfl⟩
      · rintro ((hnil | ⟨d2, rest2, heq, hd2⟩) | ⟨r2, heq, _⟩)
        · exact absurd hnil (by simp)
        · injection heq with h1 _
          subst h1
          exact Or.inl hd2
        · injection heq with h1 h2
          subst h1
          exact Or.inr ⟨rfl, by simp [← h2]⟩
    | cons e rest2 =>
      simp only [dotTail, segBoundedAfter, Bool.or_eq_true, Bool.and_eq_true,
        decide_eq_true_eq]
      constructor
      · rintro (hd | ⟨hd, he⟩)
        · exact Or.inl (Or.inr ⟨d, e :: rest2, rfl, hd⟩)
        · exact Or.inr ⟨e :: rest2, by rw [hd], Or.inr ⟨e, rest2, rfl, he⟩⟩
      · rintro ((hnil | ⟨d2, r3, heq, hd2⟩) | ⟨r2, heq, hr2⟩)
        · exact absurd hnil (by simp)
        · injection heq with h1 _
          subst h1
          exact Or.inl hd2
        · injection heq with h1 h2
          subst h1
          rcases hr2 with hnil2 | ⟨d3, r4, heq3, hd3⟩
          · exact absurd (h2.trans hnil2) (by simp)
          · refine Or.inr ⟨rfl, ?_⟩
            have he3 : e = d3 := by
              have := h2.trans heq3
              injection this
            rw [he3]
            exact hd3

theorem hasDotSegAux_iff (l : List Char) (b : Bool) :
    hasDotSegAux b l = true ↔
      ∃ pre seg post, l = pre ++ seg ++ post ∧ (seg = ['.'] ∨ seg = ['.', '.'])
        ∧ ((pre = [] ∧ b = true) ∨ ∃ pre2 c, pre = pre2 ++ [c] ∧ isSep c = true)
        ∧ segBoundedAfter post := by
  induction l generalizing b with
  | nil =>
    simp only [hasDotSegAux, Bool.false_eq_true, false_iff]
    rintro ⟨pre, seg, post, heq, hseg, _, _⟩
    rcases hseg with rfl | rfl <;> simp at heq
  | cons c rest ih =>
    simp only [hasDotSegAux, Bool.or_eq_true, Bool.and_eq_true, decide_eq_true_eq]
    constructor
    · rintro (⟨⟨hb, hc⟩, ht⟩ | hrec)
      · rw [dotTail_iff] at ht
        rcases ht with hpost | ⟨r2, hrr, hr2⟩
        · exact ⟨[], ['.'], rest, by rw [hc]; rfl, Or.inl rfl, Or.inl ⟨rfl, hb⟩, hpost⟩
        · exact ⟨[], ['.', '.'], r2, by rw [hc, hrr]; rfl, Or.inr rfl,
            Or.inl ⟨rfl, hb⟩, hr2⟩
      · rcases (ih (isSep c)).1 hrec with ⟨pre, seg, post, heq, hseg, hbound, hpost⟩
        refine ⟨c :: pre, seg, post, by rw [heq]; rfl, hseg, ?_, hpost⟩
        rcases hbound with ⟨hp, hsepc⟩ | ⟨pre2, c2, hp, hsep2⟩
        · exact Or.inr ⟨[], c, by rw [hp]; rfl, hsepc⟩
        · exact Or.inr ⟨c :: pre2, c2, by rw [hp]; rfl, hsep2⟩
    · rintro ⟨pre, seg, post, heq, hseg, hbound, hpost⟩
      cases pre with
      | nil =>
        rcases hbound with ⟨_, hb⟩ | ⟨pre2, c2, hpre, _⟩
        · rcases hseg with rfl | rfl
          · simp only [List.nil_append, List.singleton_append] at heq
            injection heq with h1 h2
            refine Or.inl ⟨⟨hb, h1⟩, ?_⟩
            rw [dotTail_iff, h2]
            exact Or.inl hpost
          · simp only [List.nil_append, List.cons_append, List.nil_append] at heq
            injection heq with h1 h2
            refine Or.inl ⟨⟨hb, h1⟩, ?_⟩
            rw [dotTail_iff, h2]
            exact Or.inr ⟨post, rfl, hpost⟩
        · exact absurd hpre (by simp)
      | cons c0 pre2 =>
        simp only [List.cons_append] at heq
        injection heq with h1 h2
        refine Or.inr ((ih (isSep c)).2 ⟨pre2, seg, post, h2, hseg, ?_, hpost⟩)
        rcases hbound with ⟨hnil, _⟩ | ⟨pre3, c3, hpre, hsep3⟩
        · exact absurd hnil (by simp)
        · cases pre3 with
          | nil =>
            simp only [List.nil_append] at hpre
            injection hpre with h3 h4
            refine Or.inl ⟨h4, ?_⟩
            rw [h1, h3]
            exact hsep3
          | cons d pre4 =>
            simp only [List.cons_append] at hpre
            injection hpre with _ h4
            exact Or.inr ⟨pre4, c3, h4, hsep3⟩

theorem invalidPrefixTest_iff (p : String) :
    invalidPrefixTest p = true ↔ prefixBadSpec p := by
  unfold invalidPrefixTest prefixBadSpec hasDotSegmentSpec segBoundedBefore
  rw [Bool.or_eq_true, twoSepStart_iff, hasDotSegAux_iff]
  apply or_congr Iff.rfl
  apply exists_congr; intro pre
  apply exists_congr; intro seg
  apply exists_congr; intro post
  apply and_congr Iff.rfl
  apply and_congr Iff.rfl
  refine and_congr ?_ Iff.rfl
  constructor
  · rintro (⟨hp, _⟩ | hp)
    · exact Or.inl hp
    · exact Or.inr hp
  · rintro (hp | hp)
    · exact Or.inl ⟨hp, rfl⟩
    · exact Or.inr hp

/-- C7: when the host, port and proto checks pass vacuously, a request
whose only checked header is `x-forwarded-prefix` is rejected by
`validateRequest` with the prefix error exactly when the header's first
token starts with two consecutive `/` or `\` characters or contains a
path segment equal to `.` or `..` bounded by `/`, `\` or the string
edges; `//evil` and `/app/../secret` are rejected while `/app` passes. -/
theorem validateRequest_prefix_rule (v u : String) (ah : List String) (p : String)
    (hp : getFirstHeaderValue (some v) = some p) (hne : p ≠ "") :
    ((invalidPrefixTest p = true ↔ prefixBadSpec p)
     ∧ (prefixBadSpec p →
        validateRequest ⟨u, [("x-forwarded-prefix", v)]⟩ ah = Except.error prefixMsg)
     ∧ (¬ prefixBadSpec p →
        validateHeaders ⟨u, [("x-forwarded-prefix", v)]⟩ = Except.ok ()))
    ∧ validateHeaders ⟨u, [("x-forwarded-prefix", "//evil")]⟩ = Except.error prefixMsg
    ∧ validateHeaders ⟨u, [("x-forwarded-prefix", "/app/../secret")]⟩ = Except.error prefixMsg
    ∧ validateHeaders ⟨u, [("x-forwarded-prefix", "/app")]⟩ = Except.ok ()
    ∧ (∀ req : Request,
        checkHostHeaderChars HOST_HEADERS_TO_VALIDATE req.headers = Except.ok () →
        truthyAnd (getFirstHeaderValue (headersGet req.headers "x-forwarded-port"))
          (fun w => !(validPortTest w)) = false →
        truthyAnd (getFirstHeaderValue (headersGet req.headers "x-forwarded-proto"))
          (fun w => !(validProtoTest w)) = false →
        (validateHeaders req = Except.error prefixMsg ↔
          truthyAnd (getFirstHeaderValue (headersGet req.headers "x-forwarded-prefix"))
            invalidPrefixTest = true)) := by
  have hfv : getFirstOfString v = p := by
    simpa [getFirstHeaderValue] using hp
  have hred : validateHeaders ⟨u, [("x-forwarded-prefix", v)]⟩
      = if (getFirstOfString v != "" && invalidPrefixTest (getFirstOfString v)) = true then
          Except.error prefixMsg
        else Except.ok () := rfl
  have hbne : (p != "") = true := by simpa using hne
  refine ⟨⟨invalidPrefixTest_iff p, ?_, ?_⟩, rfl, rfl, rfl, ?_⟩
  · intro hbad
    have hb : invalidPrefixTest p = true := (invalidPrefixTest_iff p).2 hbad
    unfold validateRequest
    rw [hred, hfv, hbne, hb]
    rfl
  · intro hgood
    have hb : invalidPrefixTest p = false := by
      rcases hb2 : invalidPrefixTest p with _ | _
      · rfl
      · exact absurd ((invalidPrefixTest_iff p).1 hb2) hgood
    rw [hred, hfv, hbne, hb]
    rfl
  · intro req h1 h2 h3
    unfold validateHeaders
    rw [h1]
    dsimp only
    rw [h2, h3]
    simp only [Bool.false_eq_true, if_false]
    by_cases hc : truthyAnd (getFirstHeaderValue (headersGet req.headers "x-forwarded-prefix"))
        invalidPrefixTest = true
    · simp [hc]
    · simp [hc]

theorem validateRequest_prefix_rule_witness :
    getFirstHeaderValue (some "//evil") = some "//evil"
    ∧ ("//evil" : String) ≠ ""
    ∧ validateRequest ⟨"https://h/", [("x-forwarded-prefix", "//evil")]⟩ []
        = Except.error prefixMsg
    ∧ (validateHeaders ⟨"https://h/", [("host", "ok.example.com"),
          ("x-forwarded-prefix", "/a/../b")]⟩ = Except.error prefixMsg ↔
        truthyAnd (getFirstHeaderValue (headersGet [("host", "ok.example.com"),
          ("x-forwarded-prefix", "/a/../b")] "x-forwarded-prefix"))
          invalidPrefixTest = true) :=
  ⟨by decide, by decide,
   (validateRequest_prefix_rule "//evil" "https://h/" [] "//evil" (by decide)
      (by decide)).1.2.1
     (((validateRequest_prefix_rule "//evil" "https://h/" [] "//evil" (by decide)
        (by decide)).1.1).mp (by decide)),
   (validateRequest_prefix_rule "//evil" "https://h/" [] "//evil" (by decide)
      (by decide)).2.2.2.2 ⟨"https://h/", [("host", "ok.example.com"),
        ("x-forwarded-prefix", "/a/../b")]⟩ (by rfl) (by rfl) (by rfl)⟩

theorem truthyAnd_empty (o : Option String) (h : o = none ∨ o = some "")
    (f : String → Bool) : truthyAnd o f = false := by
  rcases h with rfl | rfl <;> rfl

theorem checkHostHeaderChars_ok (names : List String) (hs : List (String × String))
    (h : ∀ n ∈ names, truthyAnd (getFirstHeaderValue (headersGet hs n))
      (fun v => !(validHostTest v)) = false) :
    checkHostHeaderChars names hs = Except.ok () := by
  induction names with
  | nil => rfl
  | cons n rest ih =>
    unfold checkHostHeaderChars
    rw [h n (by simp)]
    simp only [Bool.false_eq_true, if_false]
    exact ih (fun m hm => h m (by simp [hm]))

/-- C10: a missing or empty header value never causes a violation on any
path: `validateHeaders` passes when every checked header's first token is
absent or empty, `verifyHostAllowed` returns silently on an empty first
token, the patched `get` returns an absent or empty value unvalidated,
and a request with no host-like headers can never raise a header error or
resolve the outcome signal through `get`, `values`, or `entries`. -/
theorem empty_values_never_violate (u : String) (hs : List (String × String))
    (ah : List String) (st : Option String) (name v : String) :
    ((∀ n ∈ ["host", "x-forwarded-host", "x-forwarded-port", "x-forwarded-proto",
        "x-forwarded-prefix"],
        getFirstHeaderValue (headersGet hs n) = none
        ∨ getFirstHeaderValue (headersGet hs n) = some "") →
      validateHeaders ⟨u, hs⟩ = Except.ok ())
    ∧ (getFirstOfString v = "" → verifyHostAllowed name v ah = Except.ok ())
    ∧ (headersGet hs name = none → patchedGet hs ah name st = (Except.ok none, st))
    ∧ (headersGet hs name = some "" → patchedGet hs ah name st = (Except.ok (some ""), st))
    ∧ ((∀ q ∈ hs, HOST_HEADERS_TO_VALIDATE.contains q.1 = false ∧ jsToLower q.1 = q.1) →
        patchedGet hs ah name st = (Except.ok (headersGet hs name), st)
        ∧ patchedValuesCheck hs ah st = (Except.ok (), st)
        ∧ patchedEntriesCheck hs ah st = (Except.ok (), st)) := by
  refine ⟨?_, ?_, ?_, ?_, ?_⟩
  · intro hA
    have hchars : checkHostHeaderChars HOST_HEADERS_TO_VALIDATE hs = Except.ok () := by
      apply checkHostHeaderChars_ok
      intro n hn
      apply truthyAnd_empty
      apply hA
      simp only [HOST_HEADERS_TO_VALIDATE, List.mem_cons, List.not_mem_nil, or_false] at hn
      rcases hn with rfl | rfl <;> simp
    have hpo := truthyAnd_empty _ (hA "x-forwarded-port" (by simp))
      (fun w => !(validPortTest w))
    have hpr := truthyAnd_empty _ (hA "x-forwarded-proto" (by simp))
      (fun w => !(validProtoTest w))
    have hpx := truthyAnd_empty _ (hA "x-forwarded-prefix" (by simp)) invalidPrefixTest
    unfold validateHeaders
    rw [hchars]
    dsimp only
    rw [hpo, hpr, hpx]
    rfl
  · intro hB
    unfold verifyHostAllowed
    rw [hB]
    rfl
  · intro hC
    unfold patchedGet
    rw [hC]
  · intro hC2
    unfold patchedGet
    rw [hC2]
    rfl
  · intro hD
    have hget_none : ∀ n : String, HOST_HEADERS_TO_VALIDATE.contains (jsToLower n) = true →
        headersGet hs n = none := by
      intro n hmem
      unfold headersGet
      have hfind : hs.find? (fun q => q.1 == jsToLower n) = none := by
        rw [List.find?_eq_none]
        intro q hq hbe
        have hqe : q.1 = jsToLower n := by simpa using hbe
        have hc := (hD q hq).1
        rw [hqe, hmem] at hc
        exact Bool.noConfusion hc
      rw [hfind]
      rfl
    refine ⟨?_, ?_, ?_⟩
    · by_cases hmem : HOST_HEADERS_TO_VALIDATE.contains (jsToLower name) = true
      · rw [hget_none name hmem]
        unfold patchedGet
        rw [hget_none name hmem]
      · exact patchedGet_skips hs ah name st (by simpa using hmem)
    · show runHeaderChecks ah [("host", headersGet hs "host"),
        ("x-forwarded-host", headersGet hs "x-forwarded-host")] st = (Except.ok (), st)
      rw [hget_none "host" (by decide), hget_none "x-forwarded-host" (by decide)]
      rfl
    · have hrun : ∀ l : List (String × String),
          (∀ q ∈ l, HOST_HEADERS_TO_VALIDATE.contains q.1 = false ∧ jsToLower q.1 = q.1) →
          runHeaderChecks ah (l.map (fun q => (q.1, some q.2))) st = (Except.ok (), st) := by
        intro l
        induction l with
        | nil => intro _; rfl
        | cons q l2 ih =>
          intro hl
          simp only [List.map_cons]
          unfold runHeaderChecks
          rw [validateHeader_nonhost q.1 (some q.2) ah st
            (by rw [(hl q (by simp)).2]; exact (hl q (by simp)).1)]
          exact ih (fun r hr => hl r (List.mem_cons_of_mem q hr))
      exact hrun hs hD

theorem empty_values_never_violate_witness :
    validateHeaders ⟨"", [("accept", "text/html")]⟩ = Except.ok ()
    ∧ getFirstOfString " " = ""
    ∧ verifyHostAllowed "host" " " [] = Except.ok ()
    ∧ patchedGet [("accept", "text/html")] [] "host" none = (Except.ok none, none)
    ∧ patchedGet [("host", "")] [] "host" none = (Except.ok (some ""), none)
    ∧ patchedValuesCheck [("accept", "text/html")] [] none = (Except.ok (), none)
    ∧ patchedEntriesCheck [("accept", "text/html")] [] none = (Except.ok (), none) :=
  ⟨(empty_values_never_violate "" [("accept", "text/html")] [] none "host" " ").1
     (by decide),
   by decide,
   (empty_values_never_violate "" [("accept", "text/html")] [] none "host" " ").2.1
     (by decide),
   (empty_values_never_violate "" [("accept", "text/html")] [] none "host" " ").2.2.1
     (by rfl),
   (empty_values_never_violate "" [("host", "")] [] none "host" " ").2.2.2.1 (by rfl),
   ((empty_values_never_violate "" [("accept", "text/html")] [] none "host" " ").2.2.2.2
     (by decide)).2.1,
   ((empty_values_never_violate "" [("accept", "text/html")] [] none "host" " ").2.2.2.2
     (by decide)).2.2⟩

end SsrValidation
